import Mathlib

/-!
A shallow embedding of `src/spelling-checker/app.js`.

JS strings are modelled as `List Char`.  The DOM state the script reads and
writes (editor value, highlight overlay markup, stat labels, suggestion
panel) is an explicit `AppState` record, and each event handler of the
script becomes a pure state transition.  The external checking service is
an oracle value (`ApiResult`) passed to `checkText`.
-/

namespace SpellChecker

/-- The apostrophe character U+0027, via its code point. -/
def apos : Char := Char.ofNat 39

/-- The double-quote character U+0022, via its code point. -/
def dquote : Char := Char.ofNat 34

/-- JS `text.replace(/p/g, r)` for a single-character pattern `p`: every
occurrence of `p` is replaced by the string `r`. -/
def replaceChar (p : Char) (r : List Char) : List Char → List Char
  | [] => []
  | c :: cs => (if c = p then r else [c]) ++ replaceChar p r cs

/-- Source function escapeHtml (app.js lines 43-50): five sequential global replaces,
`&` first, then `<`, `>`, `"`, `'`. -/
def escapeHtml (text : List Char) : List Char :=
  replaceChar apos ("&#039;".toList)
    (replaceChar dquote ("&quot;".toList)
      (replaceChar '>' ("&gt;".toList)
        (replaceChar '<' ("&lt;".toList)
          (replaceChar '&' ("&amp;".toList) text))))

/-- The per-character effect of `escapeHtml`; the sequential replaces are
proved equal to mapping this over the input (`escapeHtml_cons`). -/
def escapeChar (c : Char) : List Char :=
  if c = '&' then ['&', 'a', 'm', 'p', ';']
  else if c = '<' then ['&', 'l', 't', ';']
  else if c = '>' then ['&', 'g', 't', ';']
  else if c = dquote then ['&', 'q', 'u', 'o', 't', ';']
  else if c = apos then ['&', '#', '0', '3', '9', ';']
  else [c]

/-- Decode the source character from the head of an escaped string: a `&`
followed by the distinguishing second character of one of the five
entities decodes to the escaped character, anything else to itself. -/
def headDecode (s : List Char) : Option Char :=
  match s with
  | [] => none
  | c :: rest =>
    if c = '&' then
      match rest with
      | [] => some c
      | d :: _ =>
        if d = 'a' then some '&'
        else if d = 'l' then some '<'
        else if d = 'g' then some '>'
        else if d = 'q' then some dquote
        else if d = '#' then some apos
        else some c
    else some c

/-- The whitespace class shared by JS `String.prototype.trim` and the regex
class `\s`, restricted to the ASCII repertoire of the model (space, tab,
newline, carriage return, vertical tab, form feed). -/
def isWs (c : Char) : Bool :=
  c = ' ' || c = '\t' || c = '\n' || c = '\r' || c = Char.ofNat 11 || c = Char.ofNat 12

/-- Strip trailing whitespace. -/
def dropTrailWs (s : List Char) : List Char :=
  (s.reverse.dropWhile isWs).reverse

/-- JS `text.trim()`: strip leading and trailing whitespace. -/
def trim (s : List Char) : List Char :=
  dropTrailWs (s.dropWhile isWs)

mutual

/-- JS `s.split(/\s+/)`, field-accumulating half: `acc` is the current field
(reversed); meeting a whitespace run emits it. -/
def splitFields (s : List Char) (acc : List Char) : List (List Char) :=
  match s with
  | [] => [acc.reverse]
  | c :: cs => if isWs c then acc.reverse :: splitSkip cs else splitFields cs (c :: acc)

/-- JS `s.split(/\s+/)`, separator-skipping half: inside a maximal
whitespace run; reaching the end emits the trailing empty field. -/
def splitSkip (s : List Char) : List (List Char) :=
  match s with
  | [] => [[]]
  | c :: cs => if isWs c then splitSkip cs else splitFields cs [c]

end

/-- JS `s.split(/\s+/)`: the fields between maximal whitespace runs,
including the empty boundary fields JS produces (`"".split(/\s+/) = [""]`,
`" a".split(/\s+/) = ["", "a"]`). -/
def jsSplitWs (s : List Char) : List (List Char) := splitFields s []

mutual

/-- Modelled from the spec: the list of maximal whitespace-delimited tokens
of a string (scanning half: outside a token). -/
def tokensOf (s : List Char) : List (List Char) :=
  match s with
  | [] => []
  | c :: cs => if isWs c then tokensOf cs else tokenRun cs [c]

/-- Modelled from the spec: inside a token, `acc` being the current token
reversed. -/
def tokenRun (s : List Char) (acc : List Char) : List (List Char) :=
  match s with
  | [] => [acc.reverse]
  | c :: cs => if isWs c then acc.reverse :: tokensOf cs else tokenRun cs (c :: acc)

end

/-- The string has no trailing whitespace (vacuously true when empty). -/
def noTrailWsP (s : List Char) : Prop :=
  ∀ c, s.reverse.head? = some c → isWs c = false

/-- The word computation of `updateStats` (app.js line 35):
`text.trim() === '' ? 0 : text.trim().split(/\s+/).length`. -/
def words (text : List Char) : Nat :=
  if trim text = [] then 0 else (jsSplitWs (trim text)).length

/-- The two stat labels `updateStats` writes to the DOM. -/
structure Stats where
  charText : List Char
  wordText : List Char
deriving DecidableEq, Repr

/-- The `s` suffix of `x !== 1 ? 's' : ''`. -/
def pluralS (n : Nat) : List Char := if n ≠ 1 then "s".toList else []

/-- A digit character from a digit value. -/
def digitChar (d : Nat) : Char := Char.ofNat (48 + d)

/-- Decimal rendering of a `Nat`, as JS string interpolation produces. -/
def natDigits (n : Nat) : List Char :=
  if _h : n < 10 then [digitChar n]
  else natDigits (n / 10) ++ [digitChar (n % 10)]
decreasing_by exact Nat.div_lt_self (by omega) (by omega)

/-- Source function updateStats (app.js lines 31-37). -/
def updateStats (text : List Char) : Stats :=
  { charText := natDigits text.length ++ " character".toList ++ pluralS text.length
  , wordText := natDigits (words text) ++ " word".toList ++ pluralS (words text) }

/-- The `rule` object of a match (only `issueType` is read). -/
structure Rule where
  issueType : List Char
deriving DecidableEq, Repr

/-- The `context` object of a match. -/
structure Context where
  text : List Char
  offset : Nat
  length : Nat
deriving DecidableEq, Repr

/-- One entry of a match's `replacements` array. -/
structure Replacement where
  value : List Char
deriving DecidableEq, Repr

/-- One issue ("match") of the service response, with the fields app.js
reads. -/
structure Match where
  offset : Nat
  length : Nat
  message : List Char
  rule : Rule
  context : Context
  replacements : List Replacement
deriving DecidableEq, Repr

/-- The order sorted by the comparator `(a, b) => a.offset - b.offset`
(app.js line 109). -/
def byOffset (a b : Match) : Prop := a.offset ≤ b.offset

instance : DecidableRel byOffset := fun a b => Nat.decLe a.offset b.offset

instance : IsTotal Match byOffset := ⟨fun a b => Nat.le_total a.offset b.offset⟩

instance : IsTrans Match byOffset := ⟨fun _ _ _ h h2 => Nat.le_trans h h2⟩

/-- The copy-and-sort step `[...currentMatches].sort((a, b) => a.offset - b.offset)` (app.js line
109): JS `Array.prototype.sort` is required to be stable, so it is modelled
by a stable sort by ascending offset. -/
def sortedMatches (ms : List Match) : List Match := ms.insertionSort byOffset

/-- The highlight class from `issueType` (app.js line 117). -/
def typeClass (m : Match) : List Char :=
  if m.rule.issueType = "misspelling".toList then "misspelling".toList else "grammar".toList

/-- The part of the opening mark tag between `<` and `>`. -/
def markOpenInner (cls : List Char) (index : Nat) : List Char :=
  "mark class=".toList ++ [dquote] ++ cls ++ [dquote] ++ " data-index=".toList
    ++ [dquote] ++ natDigits index ++ [dquote]

/-- The template literal of app.js line 119:
a `mark` element with a class, a `data-index` attribute, and the escaped
issue word as body. -/
def markTag (cls : List Char) (index : Nat) (word : List Char) : List Char :=
  ['<'] ++ markOpenInner cls index ++ ['>'] ++ word ++ ['<'] ++ "/mark".toList ++ ['>']

/-- JS `s.slice(a, b)` for non-negative indices. -/
def jsSlice (s : List Char) (a b : Nat) : List Char := (s.take b).drop a

/-- The `sortedMatches.forEach` loop of `applyHighlights` (app.js lines
111-125): `index` is the forEach position, `lastIndex` the cursor; after
the last match the remaining text is appended. -/
def renderSpans (text : List Char) : Nat → Nat → List Match → List Char
  | _, lastIndex, [] => escapeHtml (text.drop lastIndex)
  | index, lastIndex, m :: rest =>
    escapeHtml (jsSlice text lastIndex m.offset)
      ++ markTag (typeClass m) index (escapeHtml (jsSlice text m.offset (m.offset + m.length)))
      ++ renderSpans text (index + 1) (m.offset + m.length) rest

/-- Source function applyHighlights (app.js lines 103-133) as the overlay markup it
writes, including the `<br>` compensation for a trailing newline. -/
def applyHighlights (text : List Char) (ms : List Match) : List Char :=
  renderSpans text 0 0 (sortedMatches ms)
    ++ (if text.getLast? = some '\n' then "<br>".toList else [])

/-- Tag removal over rendered markup: in `inTag` mode characters up to the
next `>` are dropped; outside a tag a `<` opens one and every other
character is kept. -/
def stripTagsGo : Bool → List Char → List Char
  | _, [] => []
  | true, c :: cs => if c = '>' then stripTagsGo false cs else stripTagsGo true cs
  | false, c :: cs => if c = '<' then stripTagsGo true cs else c :: stripTagsGo false cs

/-- Modelled from the spec: strip every `<`...`>` tag from rendered markup,
keeping the text between tags. -/
def stripTags (s : List Char) : List Char := stripTagsGo false s

/-- JS `s.substring(a, b)`: clamps both ends to the string and swaps them
if needed. -/
def jsSubstring (s : List Char) (a b : Nat) : List Char :=
  (s.take (max a b)).drop (min a b)

/-- One suggestion card as rendered by `renderResults` (app.js lines
162-192): the fields are the pieces interpolated into the card template.
`index` is the forEach position over `currentMatches`; it is rendered into
`id="card-index"` and into each replacement button's
`applyReplacement(index, ...)` handler (`buttons` keeps the `(index,
value)` pair each button carries). -/
structure Card where
  index : Nat
  cardClass : List Char
  issueTypeDisplay : List Char
  message : List Char
  beforeCtx : List Char
  errCtx : List Char
  afterCtx : List Char
  buttons : List (Nat × List Char)
deriving DecidableEq, Repr

/-- The card body built for `currentMatches[index]` (app.js lines 162-191). -/
def renderCard (index : Nat) (m : Match) : Card :=
  let isMisspelling := m.rule.issueType = "misspelling".toList
  let ctxText := escapeHtml m.context.text
  { index := index
  , cardClass := if isMisspelling then "error".toList else "warning".toList
  , issueTypeDisplay := if isMisspelling then "Spelling".toList else "Grammar".toList
  , message := escapeHtml m.message
  , beforeCtx := jsSubstring ctxText 0 m.context.offset
  , errCtx := jsSubstring ctxText m.context.offset (m.context.offset + m.context.length)
  , afterCtx := ctxText.drop (m.context.offset + m.context.length)
  , buttons := (m.replacements.take 5).map (fun rep => (index, rep.value)) }

/-- The issue-count badge: hidden, or showing a count with or without the
`warning` class. -/
inductive Badge where
  | hidden : Badge
  | shown : Nat → Bool → Badge
deriving DecidableEq, Repr

/-- The suggestion panel: badge state, whether the empty-state placeholder
is shown, and the rendered cards in order. -/
structure Panel where
  badge : Badge
  emptyState : Bool
  cards : List Card
deriving DecidableEq, Repr

/-- Source function renderResults (app.js lines 135-195): empty-state placeholder with a
hidden badge when there are no matches; otherwise a badge with the match
count (`warning` when no match is a misspelling) and one card per match in
original (service) order. -/
def renderResults (ms : List Match) : Panel :=
  if ms.length = 0 then
    { badge := Badge.hidden, emptyState := true, cards := [] }
  else
    let misspellings := (ms.filter (fun m => m.rule.issueType == "misspelling".toList)).length
    { badge := Badge.shown ms.length (misspellings == 0)
    , emptyState := false
    , cards := ms.enum.map (fun p => renderCard p.1 p.2) }

/-- The DOM/JS state the script reads and writes: the editor value, the
`currentMatches` list, the overlay markup, the stat labels, and the panel. -/
structure AppState where
  buffer : List Char
  currentMatches : List Match
  overlay : List Char
  stats : Stats
  panel : Panel
deriving DecidableEq, Repr

/-- Source function clearHighlights (app.js lines 39-41): set the overlay to the plain
escaped editor value. -/
def clearHighlights (st : AppState) : AppState :=
  { st with overlay := escapeHtml st.buffer }

/-- The `editor` input listener (app.js lines 24-29), run after the user's
edit set the editor value to `newText`: `updateStats(); clearHighlights();`. -/
def onInput (st : AppState) (newText : List Char) : AppState :=
  clearHighlights { st with buffer := newText, stats := updateStats newText }

/-- The outcome of the `fetch` to the checking service as seen by
`checkText`: a transport error, a non-2xx response, or a parsed `matches`
array. -/
inductive ApiResult where
  | transportError : ApiResult
  | httpError : ApiResult
  | success : List Match → ApiResult
deriving DecidableEq, Repr

/-- What one invocation of `checkText` did: the resulting state, how many
service requests it sent, and how many `alert` notifications it showed. -/
structure CheckOutcome where
  state : AppState
  requests : Nat
  alerts : Nat
deriving DecidableEq, Repr

/-- Source function checkText (app.js lines 52-89): a no-op on blank (trim-empty) input;
on success replace `currentMatches` and re-render panel and overlay; on a
transport error or non-ok response, `alert` once and leave the state
untouched (the `finally` loading toggle is DOM-only and transient). -/
def checkText (st : AppState) (resp : ApiResult) : CheckOutcome :=
  if trim st.buffer = [] then
    { state := st, requests := 0, alerts := 0 }
  else
    match resp with
    | ApiResult.success ms =>
      { state :=
          { st with
            currentMatches := ms,
            panel := renderResults ms,
            overlay := applyHighlights st.buffer ms },
        requests := 1, alerts := 0 }
    | _ => { state := st, requests := 1, alerts := 1 }

/-- Source function window.applyReplacement (app.js lines 198-209).  Returns the new
state plus the text the triggered `checkText()` call will check (the
updated editor value); `none` when the index misses `currentMatches` (the
JS would throw reading `.offset` of `undefined`). -/
def applyReplacement (st : AppState) (matchIndex : Nat) (replacementText : List Char) :
    Option (AppState × List Char) :=
  match st.currentMatches.get? matchIndex with
  | none => none
  | some m =>
    let text := st.buffer
    let newText := jsSubstring text 0 m.offset ++ replacementText
      ++ text.drop (m.offset + m.length)
    some ({ st with buffer := newText, stats := updateStats newText }, newText)

/-- The `(data-index, issue)` pairs emitted by the `sortedMatches.forEach`
of `applyHighlights` (app.js lines 111-122): the span wrapping the issue at
sorted position `i` carries `data-index="i"`. -/
def spanIndexedIssues (ms : List Match) : List (Nat × Match) :=
  (sortedMatches ms).enum

/-- The `(card index, issue)` pairs emitted by the `currentMatches.forEach`
of `renderResults` (app.js lines 162-181, `id="card-index"`): the card at
original position `i` carries index `i`. -/
def cardIndexedIssues (ms : List Match) : List (Nat × Match) :=
  ms.enum

/-- The grammar match of the spec's §8 scenario on buffer "I has a dog". -/
def grammarIssue : Match :=
  { offset := 2, length := 3, message := "Subject-verb agreement".toList
  , rule := { issueType := "grammar".toList }
  , context := { text := "I has a dog".toList, offset := 2, length := 3 }
  , replacements := [{ value := "have".toList }] }

/-- A match at offset 5, placed first in service order. -/
def issueAt5 : Match :=
  { offset := 5, length := 3, message := [], rule := { issueType := "grammar".toList }
  , context := { text := [], offset := 0, length := 0 }, replacements := [] }

/-- A match at offset 0, placed second in service order. -/
def issueAt0 : Match :=
  { offset := 0, length := 2, message := [], rule := { issueType := "misspelling".toList }
  , context := { text := [], offset := 0, length := 0 }, replacements := [] }

/-- The spec's §8 sort-contract input: service order `[offset 5, offset 0]`. -/
def outOfOrderSet : List Match := [issueAt5, issueAt0]

/-- A state before a check of "I has a dog". -/
def baseState : AppState :=
  { buffer := "I has a dog".toList
  , currentMatches := []
  , overlay := escapeHtml ("I has a dog".toList)
  , stats := updateStats ("I has a dog".toList)
  , panel := renderResults [] }

/-- The state after `baseState`'s check succeeded with one grammar match
(the Rendered state of the spec's §8 scenario). -/
def renderedState : AppState :=
  (checkText baseState (ApiResult.success [grammarIssue])).state

/-- A whitespace-only editor state. -/
def blankState : AppState :=
  { buffer := "   ".toList
  , currentMatches := []
  , overlay := escapeHtml ("   ".toList)
  , stats := updateStats ("   ".toList)
  , panel := renderResults [] }

theorem replaceChar_append (p : Char) (r : List Char) (a b : List Char) :
    replaceChar p r (a ++ b) = replaceChar p r a ++ replaceChar p r b := by
  induction a with
  | nil => rfl
  | cons c cs ih => simp [replaceChar, ih]

theorem escapeHtml_append (a b : List Char) :
    escapeHtml (a ++ b) = escapeHtml a ++ escapeHtml b := by
  simp [escapeHtml, replaceChar_append]

theorem escapeHtml_nil : escapeHtml [] = [] := rfl

theorem escapeHtml_cons (c : Char) (cs : List Char) :
    escapeHtml (c :: cs) = escapeChar c ++ escapeHtml cs := by
  have h : c :: cs = [c] ++ cs := rfl
  rw [h, escapeHtml_append]
  congr 1
  by_cases h1 : c = '&'
  · subst h1; rfl
  · by_cases h2 : c = '<'
    · subst h2; rfl
    · by_cases h3 : c = '>'
      · subst h3; rfl
      · by_cases h4 : c = dquote
        · subst h4; rfl
        · by_cases h5 : c = apos
          · subst h5; rfl
          · simp [escapeHtml, escapeChar, replaceChar, h1, h2, h3, h4, h5]

theorem escapeChar_ne_nil (c : Char) : escapeChar c ≠ [] := by
  unfold escapeChar
  split_ifs <;> simp

theorem headDecode_escape (c : Char) (x : List Char) :
    headDecode (escapeChar c ++ x) = some c := by
  by_cases h1 : c = '&'
  · subst h1; rfl
  · by_cases h2 : c = '<'
    · subst h2; rfl
    · by_cases h3 : c = '>'
      · subst h3; rfl
      · by_cases h4 : c = dquote
        · subst h4; rfl
        · by_cases h5 : c = apos
          · subst h5; rfl
          · simp [escapeChar, h1, h2, h3, h4, h5, headDecode]

/-- C9: `escapeHtml` is injective — replacing `&` before the other four
characters loses no information, so the escaped overlay text uniquely
determines the underlying buffer content. -/
theorem escapeHtml_injective (s t : List Char) (h : escapeHtml s = escapeHtml t) :
    s = t := by
  induction s generalizing t with
  | nil =>
    cases t with
    | nil => rfl
    | cons b bs =>
      rw [escapeHtml_nil, escapeHtml_cons] at h
      rcases List.append_eq_nil.mp h.symm with ⟨hb, _⟩
      exact absurd hb (escapeChar_ne_nil b)
  | cons a as ih =>
    cases t with
    | nil =>
      rw [escapeHtml_nil, escapeHtml_cons] at h
      rcases List.append_eq_nil.mp h with ⟨hb, _⟩
      exact absurd hb (escapeChar_ne_nil a)
    | cons b bs =>
      rw [escapeHtml_cons, escapeHtml_cons] at h
      have hab : a = b := by
        have hd := congrArg headDecode h
        rw [headDecode_escape, headDecode_escape] at hd
        exact Option.some.inj hd
      subst hab
      have htail : escapeHtml as = escapeHtml bs := List.append_cancel_left h
      rw [ih bs htail]

/-- Witness for C9: the theorem applied at a concrete escaped pair. -/
theorem escapeHtml_injective_witness :
    "a&b".toList = "a&b".toList :=
  escapeHtml_injective ("a&b".toList) ("a&b".toList) rfl

theorem filter_orderedInsert_offset_eq (k : Nat) (x : Match) (l : List Match)
    (hx : x.offset = k) :
    (l.orderedInsert byOffset x).filter (fun m => m.offset == k)
      = x :: l.filter (fun m => m.offset == k) := by
  induction l with
  | nil => simp [List.orderedInsert, List.filter, hx]
  | cons y t ih =>
    by_cases h : byOffset x y
    · simp [List.orderedInsert, h, List.filter, hx]
    · have hy : (y.offset == k) = false := by
        apply beq_eq_false_iff_ne.mpr
        unfold byOffset at h
        omega
      simp [List.orderedInsert, h, List.filter_cons, hy, ih]

theorem filter_orderedInsert_offset_ne (k : Nat) (x : Match) (l : List Match)
    (hx : ¬ (x.offset = k)) :
    (l.orderedInsert byOffset x).filter (fun m => m.offset == k)
      = l.filter (fun m => m.offset == k) := by
  have hxb : (x.offset == k) = false := beq_eq_false_iff_ne.mpr hx
  induction l with
  | nil => simp [List.orderedInsert, List.filter_cons, hxb]
  | cons y t ih =>
    by_cases h : byOffset x y
    · simp [List.orderedInsert, h, List.filter_cons, hxb]
    · simp [List.orderedInsert, h, List.filter_cons, ih]

theorem filter_sortedMatches_offset (k : Nat) (ms : List Match) :
    (sortedMatches ms).filter (fun m => m.offset == k)
      = ms.filter (fun m => m.offset == k) := by
  unfold sortedMatches
  induction ms with
  | nil => rfl
  | cons x l ih =>
    rw [List.insertionSort]
    by_cases hx : x.offset = k
    · rw [filter_orderedInsert_offset_eq k x _ hx, ih]
      simp [List.filter_cons, beq_iff_eq.mpr hx]
    · rw [filter_orderedInsert_offset_ne k x _ hx, ih]
      simp [List.filter_cons, beq_eq_false_iff_ne.mpr hx]

/-- C8: the Highlight Renderer's sort of the Issue Set is by ascending
offset — the sorted copy is ordered by `byOffset` and is a permutation of
the input (so an issue at offset 0 is processed before one at offset 5
regardless of input positions) — and it is stable: for every offset value
the issues carrying it keep their source order. -/
theorem sortedMatches_sort_contract (ms : List Match) :
    (sortedMatches ms).Sorted byOffset ∧ (sortedMatches ms).Perm ms ∧
      ∀ k : Nat, (sortedMatches ms).filter (fun m => m.offset == k)
        = ms.filter (fun m => m.offset == k) :=
  ⟨List.sorted_insertionSort byOffset ms, List.perm_insertionSort byOffset ms,
    fun k => filter_sortedMatches_offset k ms⟩

/-- C1 fails as stated: on the service order `[offset 5, offset 0]` the
first highlight span (data-index 0) wraps the offset-0 issue, which sits at
position 1 in the Issue Set, while card 0 is the offset-5 issue — the
`(index, issue)` association of the two views disagrees. -/
theorem span_card_index_counterexample :
    ¬ ((0, issueAt0) ∈ spanIndexedIssues outOfOrderSet
        ↔ (0, issueAt0) ∈ cardIndexedIssues outOfOrderSet)
      ∧ (spanIndexedIssues outOfOrderSet).head? = some (0, issueAt0)
      ∧ (cardIndexedIssues outOfOrderSet).head? = some (0, issueAt5) := by
  refine ⟨?_, rfl, rfl⟩
  decide

/-- C1 (amended): the index carried on each highlight span is the issue's
position in the offset-sorted traversal; it coincides with the issue's
card index in the Suggestion Panel exactly when the Issue Set is already
sorted by ascending offset (then the two `(index, issue)` associations are
identical). -/
theorem span_card_index_agree_of_sorted (ms : List Match)
    (hsorted : List.Sorted byOffset ms) :
    spanIndexedIssues ms = cardIndexedIssues ms := by
  unfold spanIndexedIssues cardIndexedIssues sortedMatches
  rw [hsorted.insertionSort_eq]

/-- Witness for the amended C1 on an offset-sorted Issue Set. -/
theorem span_card_index_agree_witness :
    List.Sorted byOffset [issueAt0, issueAt5]
      ∧ spanIndexedIssues [issueAt0, issueAt5] = cardIndexedIssues [issueAt0, issueAt5] :=
  ⟨by decide, span_card_index_agree_of_sorted [issueAt0, issueAt5] (by decide)⟩

/-- C2 fails on the code: evaluating the input handler at the failing
input — the Rendered state after a successful check of "I has a dog" with
one grammar match, followed by an edit to "I has a dogs" — leaves
`currentMatches` at size 1 (and the suggestion panel still rendered from
it); only the overlay is reverted to the plain escaped new text.  The
listener's own comment says it clears "highlights and results", but
`clearHighlights` never touches `currentMatches`. -/
theorem edit_leaves_matches_divergence :
    (onInput renderedState ("I has a dogs".toList)).currentMatches = [grammarIssue]
      ∧ (onInput renderedState ("I has a dogs".toList)).currentMatches ≠ []
      ∧ (onInput renderedState ("I has a dogs".toList)).overlay
          = escapeHtml ("I has a dogs".toList)
      ∧ (onInput renderedState ("I has a dogs".toList)).panel
          = renderResults [grammarIssue] := by
  have h : (onInput renderedState ("I has a dogs".toList)).currentMatches
      = [grammarIssue] := rfl
  refine ⟨h, ?_, rfl, rfl⟩
  rw [h]
  exact List.cons_ne_nil _ _

/-- C4: with a valid index, `applyReplacement` splices the buffer —
`B[0:offset] ++ replacement ++ B[offset+length:]` — recomputes the stats
as `updateStats` of exactly that resulting string, leaves
`currentMatches` unpatched, and triggers the new check against the updated
buffer (the second component of the result). -/
theorem applyReplacement_spec (st : AppState) (idx : Nat) (r : List Char) (m : Match)
    (h : st.currentMatches.get? idx = some m) :
    applyReplacement st idx r =
      some ({ st with
              buffer := st.buffer.take m.offset ++ r
                ++ st.buffer.drop (m.offset + m.length),
              stats := updateStats (st.buffer.take m.offset ++ r
                ++ st.buffer.drop (m.offset + m.length)) },
            st.buffer.take m.offset ++ r ++ st.buffer.drop (m.offset + m.length)) := by
  have hsub : jsSubstring st.buffer 0 m.offset = st.buffer.take m.offset := by
    unfold jsSubstring
    simp
  unfold applyReplacement
  rw [h]
  simp only [hsub]

/-- Witness for C4: the spec's §8 scenario — replacing "has" by "have" at
index 0 of the rendered state yields buffer "I have a dog". -/
theorem applyReplacement_spec_witness :
    renderedState.currentMatches.get? 0 = some grammarIssue
      ∧ applyReplacement renderedState 0 ("have".toList) =
        some ({ renderedState with
                buffer := renderedState.buffer.take 2 ++ "have".toList
                  ++ renderedState.buffer.drop 5,
                stats := updateStats (renderedState.buffer.take 2 ++ "have".toList
                  ++ renderedState.buffer.drop 5) },
              renderedState.buffer.take 2 ++ "have".toList ++ renderedState.buffer.drop 5)
      ∧ renderedState.buffer.take 2 ++ "have".toList ++ renderedState.buffer.drop 5
          = "I have a dog".toList :=
  ⟨rfl, applyReplacement_spec renderedState 0 ("have".toList) grammarIssue rfl, by decide⟩

/-- C10: `applyReplacement` never bounds-checks its index, but whenever
`0 ≤ matchIndex < currentMatches.length` the issue lookup succeeds and the
splice is defined — the error branch of the embedding is unreachable. -/
theorem applyReplacement_inBounds (st : AppState) (idx : Nat) (r : List Char)
    (h : idx < st.currentMatches.length) :
    (applyReplacement st idx r).isSome = true := by
  unfold applyReplacement
  rcases hg : st.currentMatches.get? idx with _ | m
  · rw [List.get?_eq_none] at hg
    omega
  · simp

/-- Witness for C10 at the rendered state with index 0. -/
theorem applyReplacement_inBounds_witness :
    0 < renderedState.currentMatches.length
      ∧ (applyReplacement renderedState 0 ("have".toList)).isSome = true :=
  ⟨by decide, applyReplacement_inBounds renderedState 0 ("have".toList) (by decide)⟩

/-- C5: a check over a non-blank buffer that ends in a transport failure or
a non-success status shows exactly one alert, sends exactly one request
(no retry), and returns the state — `currentMatches` included — exactly as
it was. -/
theorem checkText_failure_atomic (st : AppState) (resp : ApiResult)
    (hne : trim st.buffer ≠ [])
    (hfail : resp = ApiResult.transportError ∨ resp = ApiResult.httpError) :
    checkText st resp = { state := st, requests := 1, alerts := 1 } := by
  unfold checkText
  rw [if_neg hne]
  rcases hfail with h | h <;> subst h <;> rfl

/-- Witness for C5: a transport failure on the "I has a dog" state. -/
theorem checkText_failure_atomic_witness :
    trim baseState.buffer ≠ []
      ∧ checkText baseState ApiResult.transportError
        = { state := baseState, requests := 1, alerts := 1 } :=
  ⟨by decide, checkText_failure_atomic baseState ApiResult.transportError (by decide)
    (Or.inl rfl)⟩

theorem dropWhile_eq_nil_of_all (s : List Char) (h : ∀ c ∈ s, isWs c = true) :
    s.dropWhile isWs = [] := by
  induction s with
  | nil => rfl
  | cons c cs ih =>
    rw [List.dropWhile_cons, if_pos (h c (by simp))]
    exact ih (fun d hd => h d (by simp [hd]))

theorem trim_eq_nil_of_all_ws (s : List Char) (h : ∀ c ∈ s, isWs c = true) :
    trim s = [] := by
  unfold trim
  rw [dropWhile_eq_nil_of_all s h]
  rfl

/-- C6: a check on a buffer whose characters are all whitespace (or which
is empty) is a no-op — no request reaches the service and the state is
unchanged. -/
theorem checkText_blank_noop (st : AppState) (resp : ApiResult)
    (hws : ∀ c ∈ st.buffer, isWs c = true) :
    checkText st resp = { state := st, requests := 0, alerts := 0 } := by
  unfold checkText
  rw [if_pos (trim_eq_nil_of_all_ws st.buffer hws)]

/-- Witness for C6 on the three-space buffer. -/
theorem checkText_blank_noop_witness :
    (∀ c ∈ blankState.buffer, isWs c = true)
      ∧ checkText blankState ApiResult.transportError
        = { state := blankState, requests := 0, alerts := 0 } :=
  ⟨by decide, checkText_blank_noop blankState ApiResult.transportError (by decide)⟩

theorem no_lt_escapeChar (c : Char) : ∀ d ∈ escapeChar c, d ≠ '<' := by
  unfold escapeChar
  split_ifs with h1 h2 h3 h4 h5
  · decide
  · decide
  · decide
  · decide
  · decide
  · intro d hd
    rw [List.mem_singleton] at hd
    subst hd
    exact h2

theorem no_lt_escapeHtml (s : List Char) : ∀ c ∈ escapeHtml s, c ≠ '<' := by
  induction s with
  | nil => simp [escapeHtml, replaceChar]
  | cons c cs ih =>
    rw [escapeHtml_cons]
    intro d hd
    rcases List.mem_append.mp hd with h | h
    · exact no_lt_escapeChar c d h
    · exact ih d h

theorem stripTagsGo_false_append (a b : List Char) (h : ∀ c ∈ a, c ≠ '<') :
    stripTagsGo false (a ++ b) = a ++ stripTagsGo false b := by
  induction a with
  | nil => rfl
  | cons c cs ih =>
    have hc : ¬ (c = '<') := h c (by simp)
    simp only [List.cons_append, stripTagsGo, if_neg hc, List.append_eq]
    rw [ih (fun d hd => h d (by simp [hd]))]

theorem stripTagsGo_true_append (u v : List Char) (h : ∀ c ∈ u, c ≠ '>') :
    stripTagsGo true (u ++ '>' :: v) = stripTagsGo false v := by
  induction u with
  | nil => simp [stripTagsGo]
  | cons c cs ih =>
    have hc : ¬ (c = '>') := h c (by simp)
    simp only [List.cons_append, stripTagsGo, if_neg hc]
    exact ih (fun d hd => h d (by simp [hd]))

theorem digitChar_ne_angle (d : Nat) (hd : d < 10) :
    digitChar d ≠ '<' ∧ digitChar d ≠ '>' := by
  interval_cases d <;> exact ⟨by decide, by decide⟩

theorem natDigits_ne_angle (n : Nat) : ∀ c ∈ natDigits n, c ≠ '<' ∧ c ≠ '>' := by
  induction n using Nat.strong_induction_on with
  | _ n ih =>
    by_cases h : n < 10
    · rw [natDigits, dif_pos h]
      intro c hc
      rw [List.mem_singleton] at hc
      subst hc
      exact digitChar_ne_angle n h
    · rw [natDigits, dif_neg h]
      intro c hc
      rcases List.mem_append.mp hc with h1 | h1
      · exact ih (n / 10) (Nat.div_lt_self (by omega) (by omega)) c h1
      · rw [List.mem_singleton] at h1
        subst h1
        exact digitChar_ne_angle (n % 10) (Nat.mod_lt n (by omega))

theorem typeClass_no_gt (m : Match) : ∀ c ∈ typeClass m, c ≠ '>' := by
  unfold typeClass
  split_ifs
  · decide
  · decide

theorem no_gt_append {a b : List Char} (ha : ∀ c ∈ a, c ≠ '>') (hb : ∀ c ∈ b, c ≠ '>') :
    ∀ c ∈ a ++ b, c ≠ '>' := by
  intro c hc
  rcases List.mem_append.mp hc with h | h
  · exact ha c h
  · exact hb c h

theorem markOpenInner_no_gt (cls : List Char) (index : Nat)
    (hcls : ∀ c ∈ cls, c ≠ '>') : ∀ c ∈ markOpenInner cls index, c ≠ '>' := by
  unfold markOpenInner
  simp only [List.append_assoc]
  refine no_gt_append ?_ (no_gt_append ?_ (no_gt_append ?_ (no_gt_append ?_
    (no_gt_append ?_ (no_gt_append ?_ (no_gt_append ?_ ?_))))))
  · decide
  · decide
  · exact hcls
  · decide
  · decide
  · decide
  · intro c h
    exact (natDigits_ne_angle index c h).2
  · decide

theorem strip_markTag (cls : List Char) (index : Nat) (w rest : List Char)
    (hcls : ∀ c ∈ cls, c ≠ '>') (hw : ∀ c ∈ w, c ≠ '<') :
    stripTagsGo false (markTag cls index w ++ rest) = w ++ stripTagsGo false rest := by
  unfold markTag
  simp only [List.append_assoc, List.cons_append, List.singleton_append, List.nil_append]
  rw [show stripTagsGo false ('<' :: (markOpenInner cls index
      ++ ('>' :: (w ++ '<' :: ("/mark".toList ++ '>' :: rest)))))
    = stripTagsGo true (markOpenInner cls index
      ++ '>' :: (w ++ '<' :: ("/mark".toList ++ '>' :: rest))) from by
    simp [stripTagsGo]]
  rw [stripTagsGo_true_append _ _ (markOpenInner_no_gt cls index hcls)]
  rw [stripTagsGo_false_append w _ hw]
  rfl

theorem drop_eq_slice_append (t : List Char) (a b : Nat) (h : a ≤ b) :
    t.drop a = jsSlice t a b ++ t.drop b := by
  unfold jsSlice
  conv_lhs => rw [← List.take_append_drop b t]
  rw [List.drop_append_eq_append_drop]
  congr 1
  rcases le_or_lt a (t.take b).length with ha | ha
  · rw [Nat.sub_eq_zero_of_le ha]
    exact List.drop_zero _
  · have hlen : (t.take b).length = min b t.length := List.length_take b t
    have hbt : t.length ≤ b := by omega
    rw [List.drop_eq_nil_of_le hbt]
    simp

theorem strip_renderSpans (text : List Char) (ms : List Match) :
    ∀ (index lastIndex : Nat) (k : List Char),
      List.Pairwise (fun a b => a.offset + a.length ≤ b.offset) ms →
      (∀ m ∈ ms, lastIndex ≤ m.offset) →
      stripTagsGo false (renderSpans text index lastIndex ms ++ k)
        = escapeHtml (text.drop lastIndex) ++ stripTagsGo false k := by
  induction ms with
  | nil =>
    intro index lastIndex k _ _
    rw [renderSpans]
    exact stripTagsGo_false_append _ k (no_lt_escapeHtml _)
  | cons m rest ih =>
    intro index lastIndex k hsep hcur
    rw [renderSpans]
    simp only [List.append_assoc]
    rw [stripTagsGo_false_append _ _ (no_lt_escapeHtml _)]
    rw [strip_markTag _ _ _ _ (typeClass_no_gt m) (no_lt_escapeHtml _)]
    rw [ih (index + 1) (m.offset + m.length) k hsep.tail
      (fun m' hm' => (List.pairwise_cons.mp hsep).1 m' hm')]
    have h1 : lastIndex ≤ m.offset := hcur m (by simp)
    have h2 : m.offset ≤ m.offset + m.length := Nat.le_add_right _ _
    rw [drop_eq_slice_append text lastIndex m.offset h1]
    conv_rhs => rw [drop_eq_slice_append text m.offset (m.offset + m.length) h2]
    rw [escapeHtml_append, escapeHtml_append]
    simp [List.append_assoc, jsSlice]

/-- C3: for a buffer and an Issue Set whose issues are ascending by offset
and pairwise non-overlapping (each ends at or before the next begins) and
in range, stripping every tag from the Highlight Renderer's output
recovers `escapeHtml` of the buffer exactly — no characters lost or
duplicated. -/
theorem applyHighlights_roundtrip (text : List Char) (ms : List Match)
    (hsep : List.Pairwise (fun a b => a.offset + a.length ≤ b.offset) ms)
    (_hrange : ∀ m ∈ ms, m.offset + m.length ≤ text.length) :
    stripTags (applyHighlights text ms) = escapeHtml text := by
  have hsorted : List.Sorted byOffset ms :=
    hsep.imp (fun h => Nat.le_trans (Nat.le_add_right _ _) h)
  unfold applyHighlights stripTags
  rw [show sortedMatches ms = ms from hsorted.insertionSort_eq]
  rw [strip_renderSpans text ms 0 0 _ hsep (fun m _ => Nat.zero_le _)]
  have hk : stripTagsGo false
      (if text.getLast? = some '\n' then "<br>".toList else []) = [] := by
    split
    · rfl
    · rfl
  rw [hk]
  simp

theorem splitFields_nil (acc : List Char) : splitFields [] acc = [acc.reverse] := by
  rw [splitFields]

theorem splitFields_cons (c : Char) (cs acc : List Char) :
    splitFields (c :: cs) acc
      = if isWs c then acc.reverse :: splitSkip cs else splitFields cs (c :: acc) := by
  rw [splitFields]

theorem splitSkip_cons (c : Char) (cs : List Char) :
    splitSkip (c :: cs) = if isWs c then splitSkip cs else splitFields cs [c] := by
  rw [splitSkip]

theorem tokensOf_nil : tokensOf [] = [] := by
  rw [tokensOf]

theorem tokensOf_cons (c : Char) (cs : List Char) :
    tokensOf (c :: cs) = if isWs c then tokensOf cs else tokenRun cs [c] := by
  rw [tokensOf]

theorem tokenRun_nil (acc : List Char) : tokenRun [] acc = [acc.reverse] := by
  rw [tokenRun]

theorem tokenRun_cons (c : Char) (cs acc : List Char) :
    tokenRun (c :: cs) acc
      = if isWs c then acc.reverse :: tokensOf cs else tokenRun cs (c :: acc) := by
  rw [tokenRun]

theorem noTrailWsP_nil : noTrailWsP [] := by
  intro c h
  simp at h

theorem noTrailWsP_single {c : Char} (h : noTrailWsP [c]) : isWs c = false :=
  h c (by simp)

theorem noTrailWsP_tail {c : Char} {cs : List Char} (h : noTrailWsP (c :: cs))
    (_hne : cs ≠ []) : noTrailWsP cs := by
  intro d hd
  apply h d
  rw [List.reverse_cons]
  cases hr : cs.reverse with
  | nil =>
    rw [hr] at hd
    simp at hd
  | cons x xs =>
    rw [hr] at hd
    simp at hd
    simp [hd]

theorem noTrailWsP_of_cons {c : Char} {cs : List Char} (h : noTrailWsP (c :: cs)) :
    noTrailWsP cs := by
  by_cases hne : cs = []
  · subst hne
    exact noTrailWsP_nil
  · exact noTrailWsP_tail h hne

theorem split_tokens_aux (n : Nat) :
    ∀ s : List Char, s.length ≤ n →
      ((noTrailWsP s → ∀ acc, splitFields s acc = tokenRun s acc)
        ∧ (noTrailWsP s → s ≠ [] → splitSkip s = tokensOf s)) := by
  induction n with
  | zero =>
    intro s hs
    have hnil : s = [] := List.eq_nil_of_length_eq_zero (Nat.le_zero.mp hs)
    subst hnil
    exact ⟨fun _ acc => by rw [splitFields_nil, tokenRun_nil],
      fun _ hne => absurd rfl hne⟩
  | succ n ih =>
    intro s hs
    cases s with
    | nil =>
      exact ⟨fun _ acc => by rw [splitFields_nil, tokenRun_nil],
        fun _ hne => absurd rfl hne⟩
    | cons c cs =>
      have hcs : cs.length ≤ n := by
        simp at hs
        omega
      constructor
      · intro hnt acc
        by_cases hc : isWs c = true
        · have hcs_ne : cs ≠ [] := by
            intro hn
            subst hn
            rw [noTrailWsP_single hnt] at hc
            exact Bool.false_ne_true hc
          have hskip := (ih cs hcs).2 (noTrailWsP_tail hnt hcs_ne) hcs_ne
          rw [splitFields_cons, tokenRun_cons, if_pos hc, if_pos hc, hskip]
        · have hrec := (ih cs hcs).1 (noTrailWsP_of_cons hnt) (c :: acc)
          rw [splitFields_cons, tokenRun_cons, if_neg hc, if_neg hc, hrec]
      · intro hnt _
        by_cases hc : isWs c = true
        · have hcs_ne : cs ≠ [] := by
            intro hn
            subst hn
            rw [noTrailWsP_single hnt] at hc
            exact Bool.false_ne_true hc
          have hskip := (ih cs hcs).2 (noTrailWsP_tail hnt hcs_ne) hcs_ne
          rw [splitSkip_cons, tokensOf_cons, if_pos hc, if_pos hc, hskip]
        · have hrec := (ih cs hcs).1 (noTrailWsP_of_cons hnt) [c]
          rw [splitSkip_cons, tokensOf_cons, if_neg hc, if_neg hc, hrec]

theorem dropTrailWs_append_rest (t : List Char) :
    t = dropTrailWs t ++ (t.reverse.takeWhile isWs).reverse := by
  unfold dropTrailWs
  rw [← List.reverse_append, List.takeWhile_append_dropWhile, List.reverse_reverse]

theorem head_trim_eq (s : List Char) (c : Char) (hc : (trim s).head? = some c) :
    (s.dropWhile isWs).head? = some c := by
  have h := dropTrailWs_append_rest (s.dropWhile isWs)
  cases hd : dropTrailWs (s.dropWhile isWs) with
  | nil =>
    rw [show trim s = dropTrailWs (s.dropWhile isWs) from rfl, hd] at hc
    simp at hc
  | cons x xs =>
    rw [show trim s = dropTrailWs (s.dropWhile isWs) from rfl, hd] at hc
    simp at hc
    rw [hd] at h
    rw [h]
    simp [hc]

theorem trim_head_not_ws (s : List Char) :
    ∀ c, (trim s).head? = some c → isWs c = false := by
  intro c hc
  have h2 := head_trim_eq s c hc
  have h3 := List.head?_dropWhile_not isWs s
  rw [h2] at h3
  exact h3

theorem trim_noTrailWs (s : List Char) : noTrailWsP (trim s) := by
  intro c hc
  unfold trim dropTrailWs at hc
  rw [List.reverse_reverse] at hc
  have h3 := List.head?_dropWhile_not isWs (s.dropWhile isWs).reverse
  rw [hc] at h3
  exact h3

theorem jsSplitWs_eq_tokensOf (s : List Char) (hne : s ≠ [])
    (hhead : ∀ c, s.head? = some c → isWs c = false) (hnt : noTrailWsP s) :
    jsSplitWs s = tokensOf s := by
  cases s with
  | nil => exact absurd rfl hne
  | cons c cs =>
    have hc : isWs c = false := hhead c rfl
    have haux := (split_tokens_aux cs.length cs (Nat.le_refl _)).1
      (noTrailWsP_of_cons hnt) [c]
    rw [show jsSplitWs (c :: cs) = splitFields (c :: cs) [] from rfl]
    rw [splitFields_cons, tokensOf_cons, if_neg (by simp [hc]), if_neg (by simp [hc])]
    exact haux

theorem tokenRun_length_pos (s : List Char) : ∀ acc, 0 < (tokenRun s acc).length := by
  induction s with
  | nil =>
    intro acc
    rw [tokenRun_nil]
    simp
  | cons c cs ih =>
    intro acc
    rw [tokenRun_cons]
    by_cases hc : isWs c = true
    · rw [if_pos hc]
      simp
    · rw [if_neg hc]
      exact ih (c :: acc)

/-- C7: the computed word count is the number of maximal
whitespace-delimited tokens of the trimmed buffer (0 when the trimmed
buffer is empty); in particular it is 0 exactly when the buffer trims to
the empty string. -/
theorem words_spec (text : List Char) :
    words text = (tokensOf (trim text)).length
      ∧ (words text = 0 ↔ trim text = []) := by
  by_cases h : trim text = []
  · rw [words, if_pos h, h, tokensOf_nil]
    simp [h]
  · have heq := jsSplitWs_eq_tokensOf (trim text) h (trim_head_not_ws text)
      (trim_noTrailWs text)
    have h1 : words text = (tokensOf (trim text)).length := by
      rw [words, if_neg h, heq]
    refine ⟨h1, ?_, fun ht => absurd ht h⟩
    intro h0
    exfalso
    rw [h1] at h0
    cases ht : trim text with
    | nil => exact h ht
    | cons c cs =>
      have hc : isWs c = false := trim_head_not_ws text c (by rw [ht]; rfl)
      rw [ht, tokensOf_cons, if_neg (by simp [hc])] at h0
      have := tokenRun_length_pos cs [c]
      omega

/-- Witness for C3 on buffer "a<b cd" with two separated issues. -/
theorem applyHighlights_roundtrip_witness :
    List.Pairwise (fun a b => a.offset + a.length ≤ b.offset) [issueAt0, issueAt5]
      ∧ (∀ m ∈ [issueAt0, issueAt5], m.offset + m.length ≤ ("a<b cd $".toList).length)
      ∧ stripTags (applyHighlights ("a<b cd $".toList) [issueAt0, issueAt5])
          = escapeHtml ("a<b cd $".toList) :=
  ⟨by decide, by decide,
    applyHighlights_roundtrip ("a<b cd $".toList) [issueAt0, issueAt5]
      (by decide) (by decide)⟩

end SpellChecker
